import Mathlib

/-!
Verification of the federated-learning coordination core of the `maternal`
repository against its natural-language specification.

The embedding follows the Python source:
  - `src/app/federated_learning/coordinator.py` (FederatedLearningCoordinator)
  - `src/app/federated_learning/hospital_node.py` (HospitalNode)
  - `src/app/models/model_utils.py` (MaternalRiskModel, evaluate_model)
  - `src/app/api/endpoints.py` (the /api/initialize, /api/train, /api/predict
    handlers)

Numeric model: numpy/python float values are modelled as exact rationals
extended with the IEEE special values nan, +inf and -inf (`NFloat`).
Arithmetic on the rational part is exact (no rounding is modelled; the spec
states its equalities up to floating-point tolerance, and the exact model is
that idealisation), while the special values follow IEEE-754 / numpy
semantics on the operations the source performs: in particular a positive
float divided by zero gives +inf and 0.0/0.0 gives nan, silently.
Signed zero and overflow to infinity are not modelled.
-/

/-- A numpy scalar: an exact rational, or one of the IEEE special values. -/
inductive NFloat where
  | num (q : ℚ)
  | nan
  | inf
  | ninf
deriving DecidableEq, Repr

namespace NFloat

/-- IEEE addition as numpy performs it elementwise. -/
def add : NFloat → NFloat → NFloat
  | nan, _ => nan
  | _, nan => nan
  | num a, num b => num (a + b)
  | inf, ninf => nan
  | ninf, inf => nan
  | inf, _ => inf
  | ninf, _ => ninf
  | num _, inf => inf
  | num _, ninf => ninf

/-- IEEE multiplication as numpy performs it elementwise. -/
def mul : NFloat → NFloat → NFloat
  | nan, _ => nan
  | _, nan => nan
  | num a, num b => num (a * b)
  | inf, num b => if 0 < b then inf else if b < 0 then ninf else nan
  | num a, inf => if 0 < a then inf else if a < 0 then ninf else nan
  | ninf, num b => if 0 < b then ninf else if b < 0 then inf else nan
  | num a, ninf => if 0 < a then ninf else if a < 0 then inf else nan
  | inf, inf => inf
  | inf, ninf => ninf
  | ninf, inf => ninf
  | ninf, ninf => inf

/-- IEEE division as numpy performs it elementwise: a nonzero float divided
by zero gives a signed infinity with a warning (not an exception), and
0.0/0.0 gives nan. -/
def div : NFloat → NFloat → NFloat
  | nan, _ => nan
  | _, nan => nan
  | num a, num b =>
      if b = 0 then (if 0 < a then inf else if a < 0 then ninf else nan)
      else num (a / b)
  | num _, inf => num 0
  | num _, ninf => num 0
  | inf, num b => if 0 ≤ b then inf else ninf
  | ninf, num b => if 0 ≤ b then ninf else inf
  | inf, _ => nan
  | ninf, _ => nan

/-- Whether the value is an ordinary (finite) float. -/
def isNum : NFloat → Bool
  | num _ => true
  | _ => false

/-- The rational value of a finite float (0 for the special values). -/
def toRat : NFloat → ℚ
  | num q => q
  | _ => 0

theorem add_num (a b : ℚ) : add (num a) (num b) = num (a + b) := rfl

theorem mul_num (a b : ℚ) : mul (num a) (num b) = num (a * b) := rfl

theorem div_num (a b : ℚ) (hb : b ≠ 0) : div (num a) (num b) = num (a / b) := by
  simp [div, hb]

end NFloat

/-- Elementwise array addition (`weighted_sum += ...` in
`aggregate_parameters`); shapes agree in every use the source makes. -/
def vecAdd (a b : List NFloat) : List NFloat := List.zipWith NFloat.add a b

/-- Array-times-scalar (`all_params[j][i] * sample_sizes[j]`). -/
def vecScale (s : ℚ) (a : List NFloat) : List NFloat :=
  a.map (fun x => x.mul (NFloat.num s))

/-- `np.zeros_like(all_params[0][i])`. -/
def npZerosLike (a : List NFloat) : List NFloat := a.map (fun _ => NFloat.num 0)

/-- Array-divided-by-scalar (`weighted_sum / total_samples`). -/
def vecDivScalar (a : List NFloat) (t : ℚ) : List NFloat :=
  a.map (fun x => x.div (NFloat.num t))

/-- `FederatedLearningCoordinator.aggregate_parameters` from
`src/app/federated_learning/coordinator.py`: federated averaging.

A parameter set is a list of arrays (one per trainable tensor), each array a
list of scalars.  `total_samples = sum(sample_sizes)`; for each array index
`i` the source accumulates `weighted_sum += all_params[j][i] * sample_sizes[j]`
over `j`, starting from `np.zeros_like(all_params[0][i])`, and divides by
`total_samples`.  The embedding is total on the domain the source is called
on (a non-empty parameter list with equal shapes and as many sample sizes as
parameter sets); outside that domain the Python code raises
IndexError/ValueError before producing a value, which the caller
`run_federated_round` models with an explicit guard. -/
def aggregate_parameters (allParams : List (List (List NFloat)))
    (sizes : List ℚ) : List (List NFloat) :=
  let total := sizes.sum
  (List.range (allParams.headD []).length).map (fun i =>
    let ws := (allParams.zip sizes).foldl
      (fun acc e => vecAdd acc (vecScale e.2 (e.1.getD i [])))
      (npZerosLike ((allParams.headD []).getD i []))
    vecDivScalar ws total)

/-- The rational value at array index `i`, element index `k`, of a parameter
set (0 for out-of-range indices and for IEEE special values). -/
def paramVal (p : List (List NFloat)) (i k : ℕ) : ℚ :=
  ((p.getD i []).getD k NFloat.nan).toRat

/-- The shape discipline the spec imposes on every `ParameterSet` of a run:
arity `A`, array `i` of length `S i`, every element an ordinary float. -/
def goodEntry (A : ℕ) (S : ℕ → ℕ) (p : List (List NFloat)) : Prop :=
  p.length = A ∧ ∀ i, i < A →
    (p.getD i []).length = S i ∧ ∀ x ∈ p.getD i [], x.isNum = true

instance goodEntryDecidable (A : ℕ) (S : ℕ → ℕ) (p : List (List NFloat)) :
    Decidable (goodEntry A S p) := by
  unfold goodEntry
  infer_instance

theorem range_map_getD (l : List α) (d : α) :
    (List.range l.length).map (fun i => l.getD i d) = l := by
  induction l with
  | nil => rfl
  | cons a t ih =>
    simp only [List.length_cons, List.range_succ_eq_map, List.map_cons,
      List.map_map]
    refine congrArg₂ List.cons rfl ?_
    exact (List.map_congr_left (fun i _ => rfl)).trans ih

theorem getD_map (f : α → β) (l : List α) (k : ℕ) (d : α) :
    (l.map f).getD k (f d) = f (l.getD k d) := by
  induction l generalizing k with
  | nil => rfl
  | cons a t ih => cases k with
    | zero => rfl
    | succ k => exact ih k

theorem getD_zipWith (f : α → β → γ) (a : List α) (b : List β)
    (h : a.length = b.length) (k : ℕ) (d1 : α) (d2 : β) :
    (List.zipWith f a b).getD k (f d1 d2) = f (a.getD k d1) (b.getD k d2) := by
  induction a generalizing b k with
  | nil =>
    cases b with
    | nil => rfl
    | cons y t => simp at h
  | cons x s ih =>
    cases b with
    | nil => simp at h
    | cons y t =>
      cases k with
      | zero => rfl
      | succ k =>
        simp only [List.length_cons, Nat.succ_inj] at h
        simpa using ih t h k

theorem map_num_toRat (a : List NFloat) (h : ∀ x ∈ a, x.isNum = true) :
    a.map (fun x => NFloat.num x.toRat) = a := by
  induction a with
  | nil => rfl
  | cons x t ih =>
    have hx := h x (by simp)
    have ht : ∀ y ∈ t, y.isNum = true := fun y hy => h y (by simp [hy])
    cases x with
    | num q => simpa [NFloat.toRat] using ih ht
    | nan => simp [NFloat.isNum] at hx
    | inf => simp [NFloat.isNum] at hx
    | ninf => simp [NFloat.isNum] at hx

theorem zipWith_add_num (a b : List ℚ) :
    List.zipWith NFloat.add (a.map NFloat.num) (b.map NFloat.num)
      = (List.zipWith (fun x y => x + y) a b).map NFloat.num := by
  induction a generalizing b with
  | nil => rfl
  | cons x s ih => cases b with
    | nil => rfl
    | cons y t => simpa [NFloat.add] using ih t

theorem vecScale_map_num (s : ℚ) (a : List ℚ) :
    vecScale s (a.map NFloat.num) = (a.map (fun q => q * s)).map NFloat.num := by
  simp [vecScale, List.map_map, NFloat.mul, Function.comp]

theorem vecDivScalar_map_num (t : ℚ) (ht : t ≠ 0) (a : List ℚ) :
    vecDivScalar (a.map NFloat.num) t
      = (a.map (fun q => q / t)).map NFloat.num := by
  simp [vecDivScalar, List.map_map, NFloat.div_num _ _ ht, Function.comp]

/-- Evaluation of the accumulation loop of `aggregate_parameters`: starting
from a finite accumulator, the loop over the (parameter set, sample size)
entries computes, at element index `k`, the accumulator plus the weighted
sum of the entries. -/
theorem foldl_vecAdd_eval (entries : List (List (List NFloat) × ℚ)) (i L : ℕ)
    (init : List ℚ) (hinit : init.length = L)
    (hent : ∀ e ∈ entries, (e.1.getD i []).length = L ∧
      ∀ x ∈ e.1.getD i [], x.isNum = true) :
    entries.foldl (fun acc e => vecAdd acc (vecScale e.2 (e.1.getD i [])))
        (init.map NFloat.num)
      = ((List.range L).map (fun k => init.getD k 0 +
          (entries.map (fun e => paramVal e.1 i k * e.2)).sum)).map NFloat.num := by
  induction entries generalizing init with
  | nil =>
    subst hinit
    simp only [List.foldl_nil, List.map_nil, List.sum_nil, add_zero]
    rw [range_map_getD]
  | cons e rest ih =>
    have he := hent e (by simp)
    have hrest : ∀ f ∈ rest, (f.1.getD i []).length = L ∧
        ∀ x ∈ f.1.getD i [], x.isNum = true :=
      fun f hf => hent f (by simp [hf])
    set arr := e.1.getD i [] with harr
    have harrq : arr = (arr.map NFloat.toRat).map NFloat.num := by
      rw [List.map_map]
      exact (map_num_toRat arr he.2).symm
    have hstep : vecAdd (init.map NFloat.num) (vecScale e.2 arr)
        = ((List.zipWith (fun x y => x + y) init
            ((arr.map NFloat.toRat).map (fun q => q * e.2))).map NFloat.num) := by
      conv_lhs => rw [harrq]
      rw [vecScale_map_num, vecAdd, zipWith_add_num]
    have hlen : (List.zipWith (fun x y => x + y) init
        ((arr.map NFloat.toRat).map (fun q => q * e.2))).length = L := by
      simp [hinit, he.1]
    rw [List.foldl_cons, hstep, ih _ hlen hrest]
    refine congrArg _ (List.map_congr_left (fun k hk => ?_))
    have hk' : k < L := List.mem_range.mp hk
    have hzl : init.length =
        ((arr.map NFloat.toRat).map (fun q => q * e.2)).length := by
      simp [hinit, he.1]
    have h1 : (List.zipWith (fun x y => x + y) init
        ((arr.map NFloat.toRat).map (fun q => q * e.2))).getD k 0
        = init.getD k 0 +
          ((arr.map NFloat.toRat).map (fun q => q * e.2)).getD k 0 := by
      have := getD_zipWith (fun x y => x + y) init
        ((arr.map NFloat.toRat).map (fun q => q * e.2)) hzl k 0 0
      simpa using this
    have h2 : ((arr.map NFloat.toRat).map (fun q => q * e.2)).getD k 0
        = paramVal e.1 i k * e.2 := by
      have ha : ((arr.map NFloat.toRat).map (fun q => q * e.2)).getD k
          ((fun q => q * e.2) 0) = (fun q => q * e.2) ((arr.map NFloat.toRat).getD k 0) :=
        getD_map (fun q => q * e.2) (arr.map NFloat.toRat) k 0
      have hb : (arr.map NFloat.toRat).getD k (NFloat.toRat NFloat.nan)
          = NFloat.toRat (arr.getD k NFloat.nan) :=
        getD_map NFloat.toRat arr k NFloat.nan
      simp only [NFloat.toRat] at hb
      simp only [zero_mul] at ha
      rw [ha, hb]
      rfl
    rw [h1, h2, List.map_cons, List.sum_cons, add_assoc]

/-- Evaluation of `aggregate_parameters` on the domain the spec describes:
non-empty entry list, every parameter set of arity `A` and shape `S` with
finite entries, total sample count nonzero.  The result is, at each array
index `i` and element index `k`, the sample-size-weighted average of the
inputs. -/
theorem aggregate_parameters_eval (entries : List (List (List NFloat) × ℚ))
    (A : ℕ) (S : ℕ → ℕ)
    (hne : entries ≠ [])
    (hgood : ∀ e ∈ entries, goodEntry A S e.1)
    (htotal : (entries.map Prod.snd).sum ≠ 0) :
    aggregate_parameters (entries.map Prod.fst) (entries.map Prod.snd)
      = (List.range A).map (fun i => (List.range (S i)).map (fun k =>
          NFloat.num ((entries.map (fun e => paramVal e.1 i k * e.2)).sum
            / (entries.map Prod.snd).sum))) := by
  obtain ⟨e0, rest, rfl⟩ := List.exists_cons_of_ne_nil hne
  have hA : (((e0 :: rest).map Prod.fst).headD []).length = A :=
    (hgood e0 (by simp)).1
  have hzip : ((e0 :: rest).map Prod.fst).zip ((e0 :: rest).map Prod.snd)
      = e0 :: rest := by
    rw [List.zip_map']
    simp
  simp only [aggregate_parameters, hA, hzip]
  refine List.map_congr_left (fun i hi => ?_)
  have hi' : i < A := List.mem_range.mp hi
  have hSi : ((((e0 :: rest).map Prod.fst).headD []).getD i []).length = S i :=
    ((hgood e0 (by simp)).2 i hi').1
  set a := (((e0 :: rest).map Prod.fst).headD []).getD i [] with ha
  have hzeros : npZerosLike a = (a.map (fun _ => (0:ℚ))).map NFloat.num := by
    simp [npZerosLike, List.map_map]
  have hent : ∀ e ∈ e0 :: rest, (e.1.getD i []).length = S i ∧
      ∀ x ∈ e.1.getD i [], x.isNum = true :=
    fun e he => (hgood e he).2 i hi'
  rw [hzeros, foldl_vecAdd_eval (e0 :: rest) i (S i)
    (a.map (fun _ => (0:ℚ))) (by simp [hSi]) hent]
  have hzero : ∀ k : ℕ, (a.map (fun _ => (0:ℚ))).getD k 0 = 0 :=
    fun k => getD_map (fun _ => (0:ℚ)) a k NFloat.nan
  simp only [hzero, zero_add]
  rw [vecDivScalar_map_num _ htotal, List.map_map, List.map_map]
  exact List.map_congr_left (fun k _ => rfl)

theorem getD_range_map (f : ℕ → α) (n k : ℕ) (hk : k < n) (d : α) :
    ((List.range n).map f).getD k d = f k := by
  induction n generalizing k with
  | zero => omega
  | succ m ih =>
    rcases Nat.lt_or_ge k m with h | h
    · rw [List.range_succ, List.map_append, List.getD_append _ _ _ _ (by simpa using h)]
      exact ih k h
    · have hk' : k = m := by omega
      subst hk'
      rw [List.range_succ, List.map_append]
      rw [List.getD_eq_getElem?_getD, List.getElem?_append_right (by simp)]
      simp

theorem range_map_getD_comp (g : α → β) (l : List α) (d : α) :
    (List.range l.length).map (fun k => g (l.getD k d)) = l.map g := by
  have h1 : (List.range l.length).map (fun k => g (l.getD k d))
      = ((List.range l.length).map (fun k => l.getD k d)).map g := by
    rw [List.map_map]
    rfl
  rw [h1, range_map_getD]

theorem getD_mem (l : List α) (i : ℕ) (h : i < l.length) (d : α) :
    l.getD i d ∈ l := by
  induction l generalizing i with
  | nil => simp at h
  | cons a t ih =>
    cases i with
    | zero => simp
    | succ i =>
      simp only [List.length_cons, Nat.succ_lt_succ_iff] at h
      exact List.mem_cons_of_mem a (ih i h)

/-- C1: for every non-empty list of (ParameterSet, sampleCount) entries with
identical arity and shapes and positive total sample count,
`aggregate_parameters` returns, at each array index `i` and element index
`k`, the elementwise sample-weighted average of the inputs; in particular,
for sample counts [10, 30] and scalar parameter values [2.0, 4.0] the result
is 3.5, not the unweighted mean 3.0. -/
theorem aggregate_parameters_weighted_average
    (entries : List (List (List NFloat) × ℚ)) (A : ℕ) (S : ℕ → ℕ)
    (hne : entries ≠ [])
    (hgood : ∀ e ∈ entries, goodEntry A S e.1)
    (htotal : 0 < (entries.map Prod.snd).sum) :
    (∀ i, i < A → ∀ k, k < S i →
      ((aggregate_parameters (entries.map Prod.fst)
          (entries.map Prod.snd)).getD i []).getD k NFloat.nan
        = NFloat.num ((entries.map (fun e => paramVal e.1 i k * e.2)).sum
            / (entries.map Prod.snd).sum))
    ∧ aggregate_parameters [[[NFloat.num 2]], [[NFloat.num 4]]] [10, 30]
        = [[NFloat.num (7/2)]]
    ∧ aggregate_parameters [[[NFloat.num 2]], [[NFloat.num 4]]] [10, 30]
        ≠ [[NFloat.num 3]] := by
  refine ⟨?_, ?_, ?_⟩
  · intro i hi k hk
    rw [aggregate_parameters_eval entries A S hne hgood (ne_of_gt htotal)]
    rw [getD_range_map _ A i hi, getD_range_map _ (S i) k hk]
  · simp [aggregate_parameters, vecAdd, vecScale, npZerosLike, vecDivScalar,
      NFloat.add, NFloat.mul, NFloat.div, List.range_succ]
    norm_num
  · simp [aggregate_parameters, vecAdd, vecScale, npZerosLike, vecDivScalar,
      NFloat.add, NFloat.mul, NFloat.div, List.range_succ]
    norm_num

/-- Witness for C1 at the spec's concrete example: two scalar parameter sets
2.0 and 4.0 with sample counts 10 and 30 average to 3.5. -/
theorem aggregate_parameters_weighted_average_witness :
    aggregate_parameters [[[NFloat.num 2]], [[NFloat.num 4]]] [10, 30]
      = [[NFloat.num (7/2)]] :=
  (aggregate_parameters_weighted_average
    [([[NFloat.num 2]], 10), ([[NFloat.num 4]], 30)] 1 (fun _ => 1)
    (by simp) (by decide) (by norm_num)).2.1

/-- C6: permuting the entry list of `aggregate_parameters` leaves the result
unchanged (here: exactly equal, since the rational model is exact). -/
theorem aggregate_parameters_perm_invariant
    (entries entries2 : List (List (List NFloat) × ℚ)) (A : ℕ) (S : ℕ → ℕ)
    (hperm : entries.Perm entries2)
    (hne : entries ≠ [])
    (hgood : ∀ e ∈ entries, goodEntry A S e.1)
    (htotal : 0 < (entries.map Prod.snd).sum) :
    aggregate_parameters (entries2.map Prod.fst) (entries2.map Prod.snd)
      = aggregate_parameters (entries.map Prod.fst) (entries.map Prod.snd) := by
  have hne2 : entries2 ≠ [] := by
    intro h
    subst h
    exact hne hperm.eq_nil
  have hgood2 : ∀ e ∈ entries2, goodEntry A S e.1 :=
    fun e he => hgood e (hperm.mem_iff.mpr he)
  have hsum : (entries.map Prod.snd).sum = (entries2.map Prod.snd).sum :=
    (hperm.map Prod.snd).sum_eq
  have htotal2 : 0 < (entries2.map Prod.snd).sum := hsum ▸ htotal
  rw [aggregate_parameters_eval entries A S hne hgood (ne_of_gt htotal),
      aggregate_parameters_eval entries2 A S hne2 hgood2 (ne_of_gt htotal2)]
  refine List.map_congr_left fun i _ => List.map_congr_left fun k _ => ?_
  rw [hsum, (hperm.map (fun e => paramVal e.1 i k * e.2)).sum_eq]

/-- Witness for C6: swapping the two entries of the spec's concrete example
yields the same aggregate. -/
theorem aggregate_parameters_perm_invariant_witness :
    aggregate_parameters [[[NFloat.num 4]], [[NFloat.num 2]]] [30, 10]
      = aggregate_parameters [[[NFloat.num 2]], [[NFloat.num 4]]] [10, 30] :=
  aggregate_parameters_perm_invariant
    [([[NFloat.num 2]], 10), ([[NFloat.num 4]], 30)]
    [([[NFloat.num 4]], 30), ([[NFloat.num 2]], 10)]
    1 (fun _ => 1) (by decide) (by simp) (by decide) (by norm_num)

/-- C7: aggregating the single-entry list [(P, n)] with n > 0 returns P. -/
theorem aggregate_parameters_single_identity (P : List (List NFloat)) (n : ℚ)
    (hn : 0 < n) (hfin : ∀ arr ∈ P, ∀ x ∈ arr, x.isNum = true) :
    aggregate_parameters [P] [n] = P := by
  have hgood : ∀ e ∈ [(P, n)],
      goodEntry P.length (fun i => (P.getD i []).length) e.1 := by
    intro e he
    simp only [List.mem_singleton] at he
    subst he
    exact ⟨rfl, fun i hi => ⟨rfl, hfin _ (getD_mem P i hi [])⟩⟩
  have htotal : ([(P, n)].map Prod.snd).sum ≠ 0 := by
    simpa using ne_of_gt hn
  have h := aggregate_parameters_eval [(P, n)] P.length
    (fun i => (P.getD i []).length) (by simp) hgood htotal
  rw [show ([(P, n)].map Prod.fst) = [P] from rfl,
      show ([(P, n)].map Prod.snd) = [n] from rfl] at h
  rw [h]
  refine Eq.trans (List.map_congr_left fun i hi => ?_) (range_map_getD P [])
  have hi' : i < P.length := List.mem_range.mp hi
  have hsimp : ∀ k : ℕ,
      ([(P, n)].map (fun e => paramVal e.1 i k * e.2)).sum
        / ([(P, n)].map Prod.snd).sum = paramVal P i k := by
    intro k
    simp only [List.map_cons, List.map_nil, List.sum_cons, List.sum_nil,
      add_zero]
    exact mul_div_cancel_right₀ _ (ne_of_gt hn)
  calc (List.range ((P.getD i []).length)).map (fun k =>
        NFloat.num (([(P, n)].map (fun e => paramVal e.1 i k * e.2)).sum
          / ([(P, n)].map Prod.snd).sum))
      = (List.range ((P.getD i []).length)).map (fun k =>
          NFloat.num (paramVal P i k)) :=
        List.map_congr_left fun k _ => by rw [hsimp k]
    _ = (P.getD i []).map (fun x => NFloat.num x.toRat) :=
        range_map_getD_comp (fun x => NFloat.num x.toRat) (P.getD i [])
          NFloat.nan
    _ = P.getD i [] := map_num_toRat _ (hfin _ (getD_mem P i hi' []))

/-- Witness for C7: a two-array parameter set with sample count 5 is
returned unchanged. -/
theorem aggregate_parameters_single_identity_witness :
    aggregate_parameters [[[NFloat.num 2, NFloat.num 3], [NFloat.num 5]]] [5]
      = [[NFloat.num 2, NFloat.num 3], [NFloat.num 5]] :=
  aggregate_parameters_single_identity
    [[NFloat.num 2, NFloat.num 3], [NFloat.num 5]] 5
    (by norm_num) (by decide)

/-- C3 counterexample: on a single entry with sample count 0 (total sample
count 0), `aggregate_parameters` does not fail with an error: numpy divides
by zero silently and the function returns a parameter set containing NaN. -/
theorem aggregate_parameters_zero_counterexample :
    aggregate_parameters [[[NFloat.num 2]]] [0] = [[NFloat.nan]] := by
  simp [aggregate_parameters, vecAdd, vecScale, npZerosLike, vecDivScalar,
    NFloat.add, NFloat.mul, NFloat.div, List.range_succ]

/-- C3 amended: for every non-empty, shape-consistent, finite entry list
whose sample counts are all zero (so the total is zero),
`aggregate_parameters` raises no error; it silently performs the 0/0
division and returns a parameter set that is NaN at every element. -/
theorem aggregate_parameters_zero_samples
    (entries : List (List (List NFloat) × ℚ)) (A : ℕ) (S : ℕ → ℕ)
    (hne : entries ≠ [])
    (hgood : ∀ e ∈ entries, goodEntry A S e.1)
    (hzero : ∀ e ∈ entries, e.2 = 0) :
    aggregate_parameters (entries.map Prod.fst) (entries.map Prod.snd)
      = (List.range A).map (fun i =>
          (List.range (S i)).map (fun _ => NFloat.nan)) := by
  obtain ⟨e0, rest, rfl⟩ := List.exists_cons_of_ne_nil hne
  have hA : (((e0 :: rest).map Prod.fst).headD []).length = A :=
    (hgood e0 (by simp)).1
  have hzip : ((e0 :: rest).map Prod.fst).zip ((e0 :: rest).map Prod.snd)
      = e0 :: rest := by
    rw [List.zip_map']
    simp
  have htotal0 : ((e0 :: rest).map Prod.snd).sum = 0 := by
    refine List.sum_eq_zero ?_
    intro x hx
    simp only [List.mem_map] at hx
    obtain ⟨e, he, rfl⟩ := hx
    exact hzero e he
  have hsum0 : ∀ i k : ℕ,
      ((e0 :: rest).map (fun e => paramVal e.1 i k * e.2)).sum = 0 := by
    intro i k
    refine List.sum_eq_zero ?_
    intro x hx
    simp only [List.mem_map] at hx
    obtain ⟨e, he, rfl⟩ := hx
    rw [hzero e he, mul_zero]
  simp only [aggregate_parameters, hA, hzip]
  refine List.map_congr_left (fun i hi => ?_)
  have hi' : i < A := List.mem_range.mp hi
  have hSi : ((((e0 :: rest).map Prod.fst).headD []).getD i []).length = S i :=
    ((hgood e0 (by simp)).2 i hi').1
  set a := (((e0 :: rest).map Prod.fst).headD []).getD i [] with ha
  have hzeros : npZerosLike a = (a.map (fun _ => (0:ℚ))).map NFloat.num := by
    simp [npZerosLike, List.map_map]
  have hent : ∀ e ∈ e0 :: rest, (e.1.getD i []).length = S i ∧
      ∀ x ∈ e.1.getD i [], x.isNum = true :=
    fun e he => (hgood e he).2 i hi'
  rw [hzeros, foldl_vecAdd_eval (e0 :: rest) i (S i)
    (a.map (fun _ => (0:ℚ))) (by simp [hSi]) hent]
  have hzz : ∀ k : ℕ, (a.map (fun _ => (0:ℚ))).getD k 0 = 0 :=
    fun k => getD_map (fun _ => (0:ℚ)) a k NFloat.nan
  simp only [hzz, hsum0, zero_add, htotal0]
  rw [vecDivScalar, List.map_map, List.map_map]
  refine List.map_congr_left (fun k _ => ?_)
  simp [NFloat.div]

/-- Witness for the C3 amended theorem: two zero-count entries average to an
all-NaN parameter set. -/
theorem aggregate_parameters_zero_samples_witness :
    aggregate_parameters [[[NFloat.num 2]], [[NFloat.num 4]]] [0, 0]
      = [[NFloat.nan]] :=
  aggregate_parameters_zero_samples
    [([[NFloat.num 2]], 0), ([[NFloat.num 4]], 0)] 1 (fun _ => 1)
    (by simp) (by decide) (by decide)

/-- True positives over a batch of binary labels and predictions. -/
def countTP (labels preds : List Bool) : ℕ :=
  ((labels.zip preds).filter (fun lp => lp.1 && lp.2)).length

/-- False positives. -/
def countFP (labels preds : List Bool) : ℕ :=
  ((labels.zip preds).filter (fun lp => !lp.1 && lp.2)).length

/-- False negatives. -/
def countFN (labels preds : List Bool) : ℕ :=
  ((labels.zip preds).filter (fun lp => lp.1 && !lp.2)).length

/-- sklearn `precision_score(..., zero_division=0)` as called by
`evaluate_model`: tp/(tp+fp), and 0 when no positive prediction exists. -/
def precision_score (labels preds : List Bool) : ℚ :=
  if countTP labels preds + countFP labels preds = 0 then 0
  else (countTP labels preds : ℚ) / (countTP labels preds + countFP labels preds)

/-- sklearn `recall_score(..., zero_division=0)`: tp/(tp+fn), and 0 when no
positive label exists. -/
def recall_score (labels preds : List Bool) : ℚ :=
  if countTP labels preds + countFN labels preds = 0 then 0
  else (countTP labels preds : ℚ) / (countTP labels preds + countFN labels preds)

/-- sklearn `f1_score(..., zero_division=0)`: 2tp/(2tp+fp+fn), and 0 when
that denominator is 0. -/
def f1_score (labels preds : List Bool) : ℚ :=
  if 2 * countTP labels preds + countFP labels preds + countFN labels preds = 0
  then 0
  else (2 * countTP labels preds : ℚ)
    / (2 * countTP labels preds + countFP labels preds + countFN labels preds)

/-- sklearn `accuracy_score`: fraction of matching label/prediction pairs
(0 for an empty batch; the empty batch never reaches this code). -/
def accuracy_score (labels preds : List Bool) : ℚ :=
  if labels.length = 0 then 0
  else (((labels.zip preds).filter (fun lp => lp.1 == lp.2)).length : ℚ)
    / labels.length

/-- Modelled from the spec: sklearn `roc_auc_score` (an external library
function, not part of src/), in its documented Mann-Whitney form: the
fraction of (positive, negative) pairs ranked correctly, ties counting
one half.  Only called when both classes are present. -/
def roc_auc_score (labels : List Bool) (probs : List ℚ) : ℚ :=
  let lp := labels.zip probs
  let pos := (lp.filter (fun x => x.1)).map Prod.snd
  let neg := (lp.filter (fun x => !x.1)).map Prod.snd
  let score := (pos.map (fun p =>
    (neg.map (fun n => if n < p then (1:ℚ) else if p = n then 1/2 else 0)).sum)).sum
  if pos.length * neg.length = 0 then 0
  else score / (pos.length * neg.length : ℕ)

/-- The metric tuple computed by `evaluate_model` in
`src/app/models/model_utils.py` from the collected labels, thresholded
predictions and probabilities: (accuracy, precision, recall, f1, auc), with
`auc = 0.0` when the labels contain fewer than two distinct classes. -/
def evaluate_model_metrics (labels preds : List Bool) (probs : List ℚ) :
    ℚ × ℚ × ℚ × ℚ × ℚ :=
  (accuracy_score labels preds,
   precision_score labels preds,
   recall_score labels preds,
   f1_score labels preds,
   if true ∈ labels ∧ false ∈ labels then roc_auc_score labels probs else 0)

/-- C9: the evaluation metrics never raise on degenerate inputs: precision,
recall and F1 are 0 whenever their denominators are 0 (in particular on an
all-negative-prediction, all-negative-label batch), and AUC is the sentinel
0 whenever the labels contain only one class. -/
theorem evaluate_model_degenerate (labels preds : List Bool) (probs : List ℚ) :
    (countTP labels preds + countFP labels preds = 0 →
      precision_score labels preds = 0)
  ∧ (countTP labels preds + countFN labels preds = 0 →
      recall_score labels preds = 0)
  ∧ (2 * countTP labels preds + countFP labels preds + countFN labels preds = 0 →
      f1_score labels preds = 0)
  ∧ ((∀ l ∈ labels, l = false) →
      (evaluate_model_metrics labels preds probs).2.2.2.2 = 0)
  ∧ ((∀ l ∈ labels, l = true) →
      (evaluate_model_metrics labels preds probs).2.2.2.2 = 0) := by
  refine ⟨?_, ?_, ?_, ?_, ?_⟩
  · intro h
    simp [precision_score, h]
  · intro h
    simp [recall_score, h]
  · intro h
    simp [f1_score, h]
  · intro h
    have hnot : true ∉ labels := fun hmem => by simpa using h true hmem
    simp [evaluate_model_metrics, hnot]
  · intro h
    have hnot : false ∉ labels := fun hmem => by simpa using h false hmem
    simp [evaluate_model_metrics, hnot]

/-- Witness for C9 on the all-negative batch of the spec. -/
theorem evaluate_model_degenerate_witness :
    precision_score [false, false] [false, false] = 0
  ∧ recall_score [false, false] [false, false] = 0
  ∧ f1_score [false, false] [false, false] = 0
  ∧ (evaluate_model_metrics [false, false] [false, false] [1/2, 1/2]).2.2.2.2
      = 0 :=
  have h := evaluate_model_degenerate [false, false] [false, false] [1/2, 1/2]
  ⟨h.1 (by decide), h.2.1 (by decide), h.2.2.1 (by decide),
   h.2.2.2.1 (by decide)⟩

/-- A `RoundMetrics` record: the flat mapping of named numeric values a node
returns from `local_train` (`loss`, `accuracy`, ..., `samples`). -/
abbrev Metrics := List (String × ℚ)

/-- The inner loop of `average_metrics`: for one key, accumulate
`metrics[key] * sample_sizes[i]` over all metric records; `none` models the
KeyError Python would raise on a record missing the key. -/
def weightedSumKey (ms : List Metrics) (sizes : List ℚ) (k : String) :
    Option ℚ :=
  (ms.zip sizes).foldl
    (fun acc p => acc.bind (fun a => (p.1.lookup k).map (fun v => a + v * p.2)))
    (some 0)

/-- `FederatedLearningCoordinator.average_metrics` from
`src/app/federated_learning/coordinator.py`: for every key of the first
record except `samples`, the sample-size-weighted average of that key over
all records.  (With a zero total Python would raise ZeroDivisionError; the
claims only concern a positive total.) -/
def average_metrics (ms : List Metrics) (sizes : List ℚ) : Option Metrics :=
  let total := sizes.sum
  let keys := ((ms.headD []).map Prod.fst).filter (fun k => k != "samples")
  keys.mapM (fun k => (weightedSumKey ms sizes k).map (fun s => (k, s / total)))

theorem weightedSumKey_eval (zs : List (Metrics × ℚ)) (k : String) (init : ℚ)
    (hsome : ∀ p ∈ zs, ((p.1.lookup k).isSome) = true) :
    zs.foldl
      (fun acc p => acc.bind (fun a => (p.1.lookup k).map (fun v => a + v * p.2)))
      (some init)
    = some (init + (zs.map (fun p => (p.1.lookup k).getD 0 * p.2)).sum) := by
  induction zs generalizing init with
  | nil => simp
  | cons p rest ih =>
    obtain ⟨v, hv⟩ := Option.isSome_iff_exists.mp (hsome p (by simp))
    have hrest : ∀ q ∈ rest, ((q.1.lookup k).isSome) = true :=
      fun q hq => hsome q (by simp [hq])
    simp only [List.foldl_cons, hv, Option.map_some', Option.some_bind]
    rw [ih _ hrest, List.map_cons, List.sum_cons, hv]
    simp [add_assoc]

theorem mapM_option_eval (keys : List String) (g : String → Option ℚ)
    (h : String → ℚ → String × ℚ)
    (hsome : ∀ k ∈ keys, (g k).isSome = true) :
    keys.mapM (fun k => (g k).map (h k))
      = some (keys.map (fun k => h k ((g k).getD 0))) := by
  induction keys with
  | nil => rfl
  | cons k rest ih =>
    obtain ⟨v, hv⟩ := Option.isSome_iff_exists.mp (hsome k (by simp))
    have hrest : ∀ q ∈ rest, (g q).isSome = true :=
      fun q hq => hsome q (by simp [hq])
    rw [List.mapM_cons, hv]
    simp only [Option.map_some']
    rw [ih hrest]
    simp [hv]

theorem lookup_map_mk (keys : List String) (f : String → ℚ) (k : String)
    (hk : k ∈ keys) :
    (keys.map (fun a => (a, f a))).lookup k = some (f k) := by
  induction keys with
  | nil => simp at hk
  | cons a rest ih =>
    by_cases hka : k = a
    · subst hka
      simp [List.lookup]
    · have hmem : k ∈ rest := by
        rcases List.mem_cons.mp hk with h | h
        · exact absurd h hka
        · exact h
      have hbeq : (k == a) = false := by simpa using hka
      simp only [List.map_cons, List.lookup, hbeq]
      exact ih hmem

/-- C10: for every non-empty list of per-node train metric records with
positive total sample count and every metric key shared by all records,
`average_metrics` succeeds and assigns to each key other than `samples` the
sample-weighted average of that key over the records — the same weighting
rule `aggregate_parameters` uses. -/
theorem average_metrics_weighted (ms : List Metrics) (sizes : List ℚ)
    (hne : ms ≠ [])
    (hkeys : ∀ m ∈ ms, ∀ k ∈ (ms.headD []).map Prod.fst,
      ((m.lookup k).isSome) = true)
    (htotal : 0 < sizes.sum) :
    ∃ r, average_metrics ms sizes = some r ∧
      ∀ k, k ∈ (ms.headD []).map Prod.fst → k ≠ "samples" →
        r.lookup k = some (((ms.zip sizes).map (fun p =>
          (p.1.lookup k).getD 0 * p.2)).sum / sizes.sum) := by
  have hzip : ∀ p ∈ ms.zip sizes, p.1 ∈ ms :=
    fun p hp => (List.of_mem_zip hp).1
  have hws : ∀ k ∈ ((ms.headD []).map Prod.fst).filter (fun k => k != "samples"),
      (weightedSumKey ms sizes k).isSome = true := by
    intro k hk
    have hk' : k ∈ (ms.headD []).map Prod.fst := (List.mem_filter.mp hk).1
    rw [weightedSumKey, weightedSumKey_eval _ _ _
      (fun p hp => hkeys p.1 (hzip p hp) k hk')]
    rfl
  have hmapM := mapM_option_eval
    (((ms.headD []).map Prod.fst).filter (fun k => k != "samples"))
    (weightedSumKey ms sizes) (fun k s => (k, s / sizes.sum)) hws
  refine ⟨_, hmapM, ?_⟩
  intro k hk hks
  have hkf : k ∈ ((ms.headD []).map Prod.fst).filter (fun k => k != "samples") :=
    List.mem_filter.mpr ⟨hk, by simpa using hks⟩
  have hlook := lookup_map_mk
    (((ms.headD []).map Prod.fst).filter (fun k => k != "samples"))
    (fun a => (weightedSumKey ms sizes a).getD 0 / sizes.sum) k hkf
  rw [show (((ms.headD []).map Prod.fst).filter (fun k => k != "samples")).map
      (fun a => (a, (weightedSumKey ms sizes a).getD 0 / sizes.sum))
    = (((ms.headD []).map Prod.fst).filter (fun k => k != "samples")).map
      (fun a => (a, ((fun b => (weightedSumKey ms sizes b).getD 0 / sizes.sum) a)))
    from rfl] at hlook
  rw [hlook]
  have hval : weightedSumKey ms sizes k
      = some ((ms.zip sizes).map (fun p => (p.1.lookup k).getD 0 * p.2)).sum := by
    rw [weightedSumKey, weightedSumKey_eval _ _ _
      (fun p hp => hkeys p.1 (hzip p hp) k hk)]
    rw [zero_add]
  simp [hval]

/-- Witness for C10: two records with losses 2.0 and 4.0 and sample counts
10 and 30 combine to the weighted loss 3.5. -/
theorem average_metrics_weighted_witness :
    ∃ r, average_metrics
        [[("loss", 2), ("samples", 10)], [("loss", 4), ("samples", 30)]]
        [10, 30] = some r ∧
      ∀ k, k ∈ (([[("loss", (2:ℚ)), ("samples", 10)],
          [("loss", 4), ("samples", 30)]] : List Metrics).headD []).map
            Prod.fst →
        k ≠ "samples" →
        r.lookup k = some (((([[("loss", (2:ℚ)), ("samples", 10)],
            [("loss", 4), ("samples", 30)]] : List Metrics).zip
              ([10, 30] : List ℚ)).map (fun p =>
          (p.1.lookup k).getD 0 * p.2)).sum / ([10, 30] : List ℚ).sum) :=
  average_metrics_weighted
    [[("loss", 2), ("samples", 10)], [("loss", 4), ("samples", 30)]]
    [10, 30] (by simp) (by decide) (by norm_num)

/-- A persisted round record (`record_training_round` row). -/
structure RoundRecord where
  round : ℕ
  trainMetrics : Metrics
  testMetrics : Metrics
deriving DecidableEq, Repr

/-- The coordinator-owned state: the global model's parameters, the round
counter, the in-memory history lists, and the durable round records the
coordinator has appended. -/
structure CoordState where
  globalParams : List (List NFloat)
  globalRound : ℕ
  trainHistory : List Metrics
  testHistory : List Metrics
  records : List RoundRecord
deriving DecidableEq, Repr

/-- The collection loop of `run_federated_round`: call `local_train` on each
hospital node in order, gathering parameter sets, `metrics['samples']` and
metric records.  A node is abstracted by its outcome for this round: either
the pair it returns or the exception it raises; the first exception
propagates (later nodes are not trained), and a record without a `samples`
key models Python's KeyError. -/
def collectNodeResults
    (nodes : List (Except String (List (List NFloat) × Metrics))) :
    Except String (List (List (List NFloat)) × List ℚ × List Metrics) :=
  match nodes with
  | [] => .ok ([], [], [])
  | r :: rest =>
    match r with
    | .error e => .error e
    | .ok (p, m) =>
      match m.lookup "samples" with
      | none => .error "KeyError"
      | some s =>
        match collectNodeResults rest with
        | .error e => .error e
        | .ok (ps, ss, ms) => .ok (p :: ps, s :: ss, m :: ms)

/-- `FederatedLearningCoordinator.run_federated_round` from
`src/app/federated_learning/coordinator.py`, as a transition on
`CoordState`: train every node, aggregate, **update the global model**,
evaluate, then append history and the round record and increment the round
counter.  A raised exception is returned alongside the state as mutated so
far: in Python, `update_global_model` has already replaced the global
parameters by the time the evaluator runs.  The empty-node guard models the
IndexError `aggregate_parameters` raises on `all_params[0]`. -/
def run_federated_round
    (nodes : List (Except String (List (List NFloat) × Metrics)))
    (evaluator : List (List NFloat) → Except String Metrics)
    (st : CoordState) : CoordState × Except String (Metrics × Metrics) :=
  match collectNodeResults nodes with
  | .error e => (st, .error e)
  | .ok (allParams, sizes, roundMetrics) =>
    if allParams.isEmpty then (st, .error "IndexError")
    else
      let averaged := aggregate_parameters allParams sizes
      let st1 := { st with globalParams := averaged }
      match evaluator averaged with
      | .error e => (st1, .error e)
      | .ok testMetrics =>
        match average_metrics roundMetrics sizes with
        | none => (st1, .error "KeyError")
        | some avgMetrics =>
          ({ st1 with
              trainHistory := st1.trainHistory ++ [avgMetrics],
              testHistory := st1.testHistory ++ [testMetrics],
              records := st1.records ++
                [⟨st1.globalRound + 1, avgMetrics, testMetrics⟩],
              globalRound := st1.globalRound + 1 },
            .ok (avgMetrics, testMetrics))

/-- C2 counterexample: with one successfully training node and an evaluator
that fails deterministically, `run_federated_round` reports the failure but
leaves the global model MUTATED: the claim that the global model's
parameter set is unchanged when the Evaluator fails is false. -/
theorem run_federated_round_eval_fail_mutates :
    (run_federated_round [Except.ok ([[NFloat.num 1]], [("samples", 5)])]
        (fun _ => Except.error "EvaluationError")
        ⟨[[NFloat.num 0]], 0, [], [], []⟩).1.globalParams
      ≠ [[NFloat.num 0]]
  ∧ (run_federated_round [Except.ok ([[NFloat.num 1]], [("samples", 5)])]
        (fun _ => Except.error "EvaluationError")
        ⟨[[NFloat.num 0]], 0, [], [], []⟩).2
      = Except.error "EvaluationError" := by
  constructor
  · have h : (run_federated_round
        [Except.ok ([[NFloat.num 1]], [("samples", 5)])]
        (fun _ => Except.error "EvaluationError")
        ⟨[[NFloat.num 0]], 0, [], [], []⟩).1.globalParams
        = [[NFloat.num 1]] := by
      simp [run_federated_round, collectNodeResults, aggregate_parameters,
        vecAdd, vecScale, npZerosLike, vecDivScalar, NFloat.add, NFloat.mul,
        NFloat.div, List.range_succ, List.lookup]
    rw [h]
    simp
  · simp [run_federated_round, collectNodeResults, List.lookup]

/-- C2 corrected: failure atomicity of `run_federated_round`.  If any node's
`local_train` fails, the state is completely unchanged.  If the evaluator
fails, the round counter, the histories and the appended records are
unchanged and no round record is appended — but the global model's
parameters have already been replaced by the aggregated parameters. -/
theorem run_federated_round_atomicity
    (nodes : List (Except String (List (List NFloat) × Metrics)))
    (evaluator : List (List NFloat) → Except String Metrics)
    (st : CoordState) :
    (∀ e, collectNodeResults nodes = .error e →
      run_federated_round nodes evaluator st = (st, .error e))
  ∧ (∀ ps sizes ms e, collectNodeResults nodes = .ok (ps, sizes, ms) →
      ps ≠ [] →
      evaluator (aggregate_parameters ps sizes) = .error e →
      (run_federated_round nodes evaluator st).1.globalRound = st.globalRound
      ∧ (run_federated_round nodes evaluator st).1.trainHistory
          = st.trainHistory
      ∧ (run_federated_round nodes evaluator st).1.testHistory
          = st.testHistory
      ∧ (run_federated_round nodes evaluator st).1.records = st.records
      ∧ (run_federated_round nodes evaluator st).1.globalParams
          = aggregate_parameters ps sizes
      ∧ (run_federated_round nodes evaluator st).2 = .error e) := by
  constructor
  · intro e h
    simp [run_federated_round, h]
  · intro ps sizes ms e hc hne hev
    cases ps with
    | nil => exact absurd rfl hne
    | cons p pt =>
      simp [run_federated_round, hc, hev]

/-- Witness for the C2 amended theorem: a failing node leaves the state
untouched, and a failing evaluator preserves round counter and histories
while installing the aggregated parameters. -/
theorem run_federated_round_atomicity_witness :
    run_federated_round [Except.error "TrainingError"]
        (fun _ => Except.ok []) ⟨[[NFloat.num 0]], 0, [], [], []⟩
      = (⟨[[NFloat.num 0]], 0, [], [], []⟩, Except.error "TrainingError")
  ∧ (run_federated_round [Except.ok ([[NFloat.num 1]], [("samples", 5)])]
        (fun _ => Except.error "EvaluationError")
        ⟨[[NFloat.num 0]], 7, [], [], []⟩).1.globalRound = 7 :=
  ⟨(run_federated_round_atomicity [Except.error "TrainingError"]
      (fun _ => Except.ok []) ⟨[[NFloat.num 0]], 0, [], [], []⟩).1
      "TrainingError" rfl,
   ((run_federated_round_atomicity
      [Except.ok ([[NFloat.num 1]], [("samples", 5)])]
      (fun _ => Except.error "EvaluationError")
      ⟨[[NFloat.num 0]], 7, [], [], []⟩).2
      [[[NFloat.num 1]]] [5] [[("samples", 5)]] "EvaluationError"
      rfl (by simp) rfl).1⟩

/-- `FederatedLearningCoordinator.run_federated_training`: `for _ in
range(rounds): self.run_federated_round()`, returning `self.history`; an
exception aborts the loop and propagates, leaving the rounds already
completed in place. -/
def run_federated_training
    (nodes : List (Except String (List (List NFloat) × Metrics)))
    (evaluator : List (List NFloat) → Except String Metrics) :
    CoordState → ℕ → CoordState × Except String (List Metrics × List Metrics)
  | st, 0 => (st, .ok (st.trainHistory, st.testHistory))
  | st, n + 1 =>
    match run_federated_round nodes evaluator st with
    | (st1, .ok _) => run_federated_training nodes evaluator st1 n
    | (st1, .error e) => (st1, .error e)

/-- A JSON value as the `/api/train` handler may receive for `rounds`. -/
inductive PyVal where
  | int (n : ℤ)
  | float (q : ℚ)
  | str (s : String)
  | bool (b : Bool)
  | pyNone
deriving DecidableEq, Repr

/-- Python `int()` truncation of a float: toward zero. -/
def pyTruncate (q : ℚ) : ℤ := if q < 0 then ⌈q⌉ else ⌊q⌋

/-- Python `int(x)` as used by the `/api/train` handler: identity on ints,
truncation toward zero on floats, 0/1 on bools, string parsing (ValueError
on failure; Python additionally accepts a leading `+` and underscores,
which no claim exercises), TypeError on None. -/
def pyInt : PyVal → Except String ℤ
  | .int n => .ok n
  | .float q => .ok (pyTruncate q)
  | .bool b => .ok (if b then 1 else 0)
  | .str s =>
      match s.trim.toInt? with
      | some n => .ok n
      | none => .error "ValueError"
  | .pyNone => .error "TypeError"

/-- The HTTP-level outcome of an endpoint call: 200, 400 or 500. -/
inductive ApiResult where
  | success
  | clientError (msg : String)
  | serverError (msg : String)
deriving DecidableEq, Repr

/-- `config.FEDERATED_ROUNDS` from `src/config.py`, the default when the
request body has no `rounds` field. -/
def FEDERATED_ROUNDS : ℤ := 5

/-- The `/api/train` handler `train_federated_model` from
`src/app/api/endpoints.py`: 400 if no coordinator, `rounds =
int(data.get('rounds', config.FEDERATED_ROUNDS))` with TypeError/ValueError
and `rounds <= 0` both answered 400 before any round runs, then
`run_federated_training(rounds)`; an exception during training yields 500
with the partially-advanced coordinator kept.  (The `save_model_version`
checkpoint write after training is not modelled; no claim concerns it.) -/
def train_federated_model (st : Option CoordState)
    (nodes : List (Except String (List (List NFloat) × Metrics)))
    (evaluator : List (List NFloat) → Except String Metrics)
    (roundsVal : Option PyVal) : Option CoordState × ApiResult :=
  match st with
  | none => (none, .clientError
      "Federated learning not initialized. Call /api/initialize first.")
  | some s =>
    match pyInt (roundsVal.getD (PyVal.int FEDERATED_ROUNDS)) with
    | .error _ => (some s, .clientError "Rounds must be a positive integer.")
    | .ok r =>
      if r ≤ 0 then
        (some s, .clientError "Rounds must be a positive integer.")
      else
        match run_federated_training nodes evaluator s r.toNat with
        | (s1, .ok _) => (some s1, .success)
        | (s1, .error e) => (some s1, .serverError ("Training failed: " ++ e))

/-- C8 counterexample: the request `rounds = 3.5` is not a positive integer,
yet the handler does not fail fast: Python `int(3.5)` truncates to 3 and the
handler runs 3 full rounds and reports success. -/
theorem train_federated_model_float_counterexample :
    (train_federated_model (some ⟨[[NFloat.num 0]], 0, [], [], []⟩)
        [Except.ok ([[NFloat.num 1]], [("samples", 2)])]
        (fun _ => Except.ok [("accuracy", 1)])
        (some (PyVal.float (7/2)))).2 = ApiResult.success
  ∧ ((train_federated_model (some ⟨[[NFloat.num 0]], 0, [], [], []⟩)
        [Except.ok ([[NFloat.num 1]], [("samples", 2)])]
        (fun _ => Except.ok [("accuracy", 1)])
        (some (PyVal.float (7/2)))).1.map CoordState.globalRound) = some 3 := by
  have htr : pyTruncate (7/2) = 3 := by
    rw [pyTruncate, if_neg (by norm_num)]
    norm_num
  constructor
  · simp [train_federated_model, pyInt, htr, run_federated_training,
      run_federated_round, collectNodeResults, average_metrics,
      weightedSumKey, aggregate_parameters, vecAdd, vecScale, npZerosLike,
      vecDivScalar, NFloat.add, NFloat.mul, NFloat.div, List.range_succ,
      List.lookup, List.mapM, List.mapM.loop]
  · simp [train_federated_model, pyInt, htr, run_federated_training,
      run_federated_round, collectNodeResults, average_metrics,
      weightedSumKey, aggregate_parameters, vecAdd, vecScale, npZerosLike,
      vecDivScalar, NFloat.add, NFloat.mul, NFloat.div, List.range_succ,
      List.lookup, List.mapM, List.mapM.loop]

/-- C8 amended: the `/api/train` handler rejects the request with a 400
error, before any round runs and with the coordinator unchanged, exactly
when Python `int()` fails on the supplied `rounds` value or yields a result
at most 0; a non-integer float is truncated toward zero by `int()` (so
`rounds = 3.5` runs 3 rounds instead of failing, and `rounds = 0.5` is
rejected because it truncates to 0). -/
theorem train_federated_model_validation (s : CoordState)
    (nodes : List (Except String (List (List NFloat) × Metrics)))
    (evaluator : List (List NFloat) → Except String Metrics) (v : PyVal) :
    (∀ e, pyInt v = .error e →
      train_federated_model (some s) nodes evaluator (some v)
        = (some s, ApiResult.clientError "Rounds must be a positive integer."))
  ∧ (∀ r, pyInt v = .ok r → r ≤ 0 →
      train_federated_model (some s) nodes evaluator (some v)
        = (some s, ApiResult.clientError "Rounds must be a positive integer."))
  ∧ (∀ q, v = PyVal.float q → pyInt v = .ok (pyTruncate q)) := by
  refine ⟨?_, ?_, ?_⟩
  · intro e h
    simp [train_federated_model, h]
  · intro r h hr
    simp [train_federated_model, h, hr]
  · intro q h
    subst h
    rfl

/-- Witness for the C8 amended theorem: `rounds = 0` is rejected with the
client error and an unchanged coordinator, and `int(3.5) = 3`. -/
theorem train_federated_model_validation_witness :
    train_federated_model (some ⟨[], 0, [], [], []⟩) []
        (fun _ => Except.ok []) (some (PyVal.int 0))
      = (some ⟨[], 0, [], [], []⟩,
          ApiResult.clientError "Rounds must be a positive integer.")
  ∧ pyInt (PyVal.float (7/2)) = Except.ok (pyTruncate (7/2)) :=
  ⟨(train_federated_model_validation ⟨[], 0, [], [], []⟩ []
      (fun _ => Except.ok []) (PyVal.int 0)).2.1 0 rfl (le_refl 0),
   (train_federated_model_validation ⟨[], 0, [], [], []⟩ []
      (fun _ => Except.ok []) (PyVal.float (7/2))).2.2 (7/2) rfl⟩

/-- The keyword parameters `HospitalNode.__init__` accepts, from
`src/app/federated_learning/hospital_node.py` (besides `self`). -/
def hospitalNodeInitKeywords : List String :=
  ["node_id", "dataloader", "device", "config"]

/-- The keyword arguments the `/api/initialize` handler passes when
constructing each `HospitalNode` in `src/app/api/endpoints.py`. -/
def initializeCallKeywords : List String :=
  ["node_id", "dataloader", "device", "config", "pos_weight"]

/-- Python keyword-argument checking: a call is accepted iff every supplied
keyword is a declared parameter (the signature has no `**kwargs`);
otherwise the call raises TypeError. -/
def pyCallAccepts (params kwargs : List String) : Bool :=
  kwargs.all (fun k => params.contains k)

/-- Constructing one `HospitalNode` the way `/api/initialize` does. -/
def constructHospitalNode : Except String Unit :=
  if pyCallAccepts hospitalNodeInitKeywords initializeCallKeywords then .ok ()
  else .error "TypeError"

/-- `config.NUM_HOSPITALS` from `src/config.py`. -/
def NUM_HOSPITALS : ℕ := 3

/-- The coordinator state the success branch of `/api/initialize` would
install (never reached; the data-pipeline details are irrelevant to the
claims and are not modelled). -/
def initialCoordState : CoordState := ⟨[], 0, [], [], []⟩

/-- The `/api/initialize` handler `initialize_federated_learning` from
`src/app/api/endpoints.py`, reduced to the control flow the claim concerns:
it constructs one `HospitalNode` per hospital inside a try/except; the
first exception is answered with a 500 error and the module-level
`coordinator` variable keeps its previous value. -/
def initialize_federated_learning (st : Option CoordState) :
    Option CoordState × ApiResult :=
  match (List.range NUM_HOSPITALS).mapM (fun _ => constructHospitalNode) with
  | .error e => (st, .serverError ("Failed to initialize: " ++ e))
  | .ok _ => (some initialCoordState, .success)

/-- C5: the `/api/initialize` handler always fails: the handler passes the
keyword argument `pos_weight`, which `HospitalNode.__init__` does not
accept, so node construction raises TypeError, the handler returns an error
response, and the coordinator handle is never created (the stored
coordinator keeps whatever value it had). -/
theorem initialize_federated_learning_always_fails (st : Option CoordState) :
    constructHospitalNode = Except.error "TypeError"
  ∧ initialize_federated_learning st
      = (st, ApiResult.serverError "Failed to initialize: TypeError") := by
  constructor
  · rfl
  · have h : (List.range NUM_HOSPITALS).mapM (fun _ => constructHospitalNode)
        = (Except.error "TypeError" :
            Except String (List Unit)) := rfl
    unfold initialize_federated_learning
    rw [h]
    rfl

/-- The logistic sigmoid `torch.sigmoid` / `nn.Sigmoid`. -/
noncomputable def sigmoid (x : ℝ) : ℝ := 1 / (1 + Real.exp (-x))

/-- Dot product of a weight row with the feature vector. -/
noncomputable def dotProduct (w x : List ℝ) : ℝ :=
  (List.zipWith (fun a b => a * b) w x).sum

/-- `nn.Linear`: one output per (weight row, bias) pair. -/
noncomputable def linear (w : List (List ℝ)) (b : List ℝ) (x : List ℝ) :
    List ℝ :=
  (w.zip b).map (fun rb => dotProduct rb.1 x + rb.2)

/-- `nn.ReLU` elementwise. -/
noncomputable def reluVec (v : List ℝ) : List ℝ := v.map (fun t => max t 0)

/-- `MaternalRiskModel` from `src/app/models/model_utils.py`: three linear
layers with their weights and biases (dropout has no parameters). -/
structure MaternalRiskModel where
  w1 : List (List ℝ)
  b1 : List ℝ
  w2 : List (List ℝ)
  b2 : List ℝ
  w3 : List (List ℝ)
  b3 : List ℝ

/-- `MaternalRiskModel.forward` in eval mode (as `/api/predict` runs it:
`model.eval()` makes both dropout layers the identity):
layer1 → relu → layer2 → relu → layer3 → **sigmoid**.  The forward pass
already ends in a sigmoid. -/
noncomputable def MaternalRiskModel.forward (m : MaternalRiskModel)
    (x : List ℝ) : List ℝ :=
  (linear m.w3 m.b3
    (reluVec (linear m.w2 m.b2
      (reluVec (linear m.w1 m.b1 x))))).map sigmoid

/-- The risk score computed by the `/api/predict` handler `predict_risk` in
`src/app/api/endpoints.py`: `logits = model(features)` followed by
`risk_score = torch.sigmoid(logits).item()` — a second sigmoid applied to
the model's already-sigmoided output. -/
noncomputable def risk_score (m : MaternalRiskModel) (x : List ℝ) : ℝ :=
  sigmoid ((m.forward x).headD 0)

/-- `risk_category = 'High Risk' if risk_score > 0.5 else 'Low Risk'`. -/
noncomputable def risk_category (m : MaternalRiskModel) (x : List ℝ) :
    String :=
  if 1/2 < risk_score m x then "High Risk" else "Low Risk"

theorem sigmoid_pos (x : ℝ) : 0 < sigmoid x := by
  rw [sigmoid]
  positivity

theorem sigmoid_lt_one (x : ℝ) : sigmoid x < 1 := by
  rw [sigmoid, div_lt_one (by positivity)]
  linarith [Real.exp_pos (-x)]

theorem sigmoid_strictMono : StrictMono sigmoid := by
  intro x y hxy
  rw [sigmoid, sigmoid]
  refine div_lt_div_of_pos_left one_pos (by positivity) ?_
  have := Real.exp_lt_exp.mpr (neg_lt_neg hxy)
  linarith

theorem sigmoid_zero : sigmoid 0 = 1/2 := by
  rw [sigmoid]
  norm_num

theorem sigmoid_one_lt : sigmoid 1 < 0.7311 := by
  have h1 : Real.exp 1 < 2.7182818286 := Real.exp_one_lt_d9
  have h2 : (0:ℝ) < Real.exp 1 := Real.exp_pos 1
  have h3 : Real.exp (-1) = (Real.exp 1)⁻¹ := by
    rw [Real.exp_neg]
  have h4 : (2.7182818286:ℝ)⁻¹ < Real.exp (-1) := by
    rw [h3]
    exact inv_lt_inv_of_lt h2 h1
  rw [sigmoid, div_lt_iff (by positivity)]
  nlinarith [h4]

/-- C4: because `/api/predict` applies `torch.sigmoid` to the model output
and the model's forward pass already ends in a sigmoid, the returned risk
score lies strictly between 0.5 and 0.7311 for every model with one output
unit (`OUTPUT_SIZE = 1`) and every feature vector, and the risk category is
always "High Risk" — no input is ever classified "Low Risk". -/
theorem predict_always_high_risk (m : MaternalRiskModel) (x : List ℝ)
    (hw : m.w3.length = 1) (hb : m.b3.length = 1) :
    1/2 < risk_score m x ∧ risk_score m x < 0.7311
  ∧ risk_category m x = "High Risk" := by
  have hlen : (linear m.w3 m.b3
      (reluVec (linear m.w2 m.b2 (reluVec (linear m.w1 m.b1 x))))).length
      = 1 := by
    simp [linear, hw, hb]
  obtain ⟨z, hz⟩ := List.length_eq_one.mp hlen
  have hf : m.forward x = [sigmoid z] := by
    rw [MaternalRiskModel.forward, hz]
    rfl
  have hs : risk_score m x = sigmoid (sigmoid z) := by
    rw [risk_score, hf]
    rfl
  have h0 : 0 < sigmoid z := sigmoid_pos z
  have h1 : sigmoid z < 1 := sigmoid_lt_one z
  have hlow : 1/2 < sigmoid (sigmoid z) := by
    have hmono := sigmoid_strictMono h0
    rw [sigmoid_zero] at hmono
    exact hmono
  have hhigh : sigmoid (sigmoid z) < 0.7311 :=
    lt_trans (sigmoid_strictMono h1) sigmoid_one_lt
  refine ⟨by rw [hs]; exact hlow, by rw [hs]; exact hhigh, ?_⟩
  rw [risk_category, if_pos (by rw [hs]; exact hlow)]

/-- Witness for C4 on a concrete one-output model and a concrete feature
vector. -/
theorem predict_always_high_risk_witness :
    1/2 < risk_score ⟨[[1]], [0], [[1]], [0], [[1]], [0]⟩ [0]
  ∧ risk_score ⟨[[1]], [0], [[1]], [0], [[1]], [0]⟩ [0] < 0.7311
  ∧ risk_category ⟨[[1]], [0], [[1]], [0], [[1]], [0]⟩ [0] = "High Risk" :=
  predict_always_high_risk ⟨[[1]], [0], [[1]], [0], [[1]], [0]⟩ [0] rfl rfl
